import Mathlib

/-!
Shallow embedding of `crates/ra_project_model/src/cargo_workspace.rs`
(rust-analyzer project model): the `CargoWorkspace` builder
(`CargoWorkspace::from_cargo_metadata`), the extern-resource loader
(`load_extern_resources`), target-kind classification (`TargetKind::new`),
the name-disambiguation helper (`package_flag` / `is_unique`) and the
dynamic-library extension check (`is_dylib`).

External process execution (running `cargo metadata` / `cargo check`) is
outside the embedding: the functions here take the parsed output of those
invocations as explicit arguments.  Arena-allocated indices (`Idx<T>`)
become positions (`Nat`) into Lean lists; `FxHashMap` becomes an
association list where insertion prepends (so `List.lookup`, which finds
the first matching key, realizes the hash map's last-insert-wins overwrite
semantics).  Rust `log::error!` calls become an accumulated warning list.
A Rust panic (`Option::expect`) is a distinct outcome constructor, kept
apart from the `Result` error channel.
-/

namespace CargoWS

/-- Mirrors `CargoConfig` (cargo_workspace.rs lines 44-61). -/
structure CargoConfig where
  no_default_features : Bool
  all_features : Bool
  features : List String
  load_out_dirs_from_check : Bool
  target : Option String

/-- Mirrors `TargetKind` (lines 109-118). -/
inductive TargetKind where
  | Bin
  | Lib
  | Example
  | Test
  | Bench
  | Other
deriving DecidableEq

/-- Prefix test on character lists (helper for the Rust substring test). -/
def strIsPrefix : List Char → List Char → Bool
  | [], _ => true
  | _ :: _, [] => false
  | p :: ps, c :: cs => p == c && strIsPrefix ps cs

/-- Substring occurrence test on character lists (Rust `str::contains`). -/
def strHasInfix (pat : List Char) : List Char → Bool
  | [] => pat.isEmpty
  | c :: cs => strIsPrefix pat (c :: cs) || strHasInfix pat cs

/-- Rust `kind.contains("lib")`. -/
def strContainsLib (kind : String) : Bool :=
  strHasInfix "lib".data kind.data

/-- Mirrors `TargetKind::new` (lines 120-135): iterate over the raw kind
labels; the first label matching one of the rules decides, a label matching
no rule is skipped (`continue`); if the list is exhausted the kind is
`Other`.  `kind.contains("lib")` (Rust substring test) is embedded as
`strContainsLib`. -/
def TargetKind.new : List String → TargetKind
  | [] => TargetKind.Other
  | kind :: rest =>
    if kind = "bin" then TargetKind.Bin
    else if kind = "test" then TargetKind.Test
    else if kind = "bench" then TargetKind.Bench
    else if kind = "example" then TargetKind.Example
    else if kind = "proc-macro" then TargetKind.Lib
    else if strContainsLib kind then TargetKind.Lib
    else TargetKind.new rest

/-- The specification's per-label classification table (spec section 4.3):
`bin` maps to Binary, `test` to Test, `bench` to Benchmark, `example` to
Example, the compiler-extension label to Library, any label containing the
substring "lib" to Library, and a label matching no rule to nothing. -/
def labelRule (kind : String) : Option TargetKind :=
  if kind = "bin" then some TargetKind.Bin
  else if kind = "test" then some TargetKind.Test
  else if kind = "bench" then some TargetKind.Bench
  else if kind = "example" then some TargetKind.Example
  else if kind = "proc-macro" then some TargetKind.Lib
  else if strContainsLib kind then some TargetKind.Lib
  else none

/-- The specification's formulation of target-kind classification: scan the
labels in list order, the first label matching any rule wins, `Other` when
no label matches. -/
def targetKindSpec (kinds : List String) : TargetKind :=
  ((kinds.filterMap labelRule).head?).getD TargetKind.Other

/-- Mirrors `PackageDependency` (lines 94-98); `pkg` is the arena index of
the target package, embedded as a list position. -/
structure PackageDependency where
  pkg : Nat
  name : String
deriving DecidableEq

/-- Mirrors the language edition enum of `ra_db`.
Modelled from the spec: the `ra_db::Edition` type and its string parser are
not part of this repository slice (only their use at lines 190-192 is); the
spec says a package's edition identifier is parsed and an identifier that
does not match any recognized value is a fatal `EditionParseError`.  The
recognized values of the era are "2015" and "2018". -/
inductive Edition where
  | edition2015
  | edition2018
deriving DecidableEq

/-- Modelled from the spec: parsing of the edition string (see `Edition`). -/
def Edition.parse (s : String) : Option Edition :=
  if s = "2015" then some Edition.edition2015
  else if s = "2018" then some Edition.edition2018
  else none

/-- Mirrors `PackageData` (lines 79-92); the field `proc_dylib_path`
embeds the source field holding the compiler-extension dynamic-library
path, and `targets` holds arena indices as list positions. -/
structure PackageData where
  version : String
  name : String
  manifest : String
  targets : List Nat
  is_member : Bool
  dependencies : List PackageDependency
  edition : Edition
  features : List String
  cfgs : List String
  out_dir : Option String
  proc_dylib_path : Option String
deriving DecidableEq

/-- Mirrors `TargetData` (lines 100-107); the field `proc_m_flag` embeds
the source field marking a compiler-extension target. -/
structure TargetData where
  package : Nat
  name : String
  root : String
  kind : TargetKind
  proc_m_flag : Bool
deriving DecidableEq

/-- Mirrors `CargoWorkspace` (lines 23-28): the two arenas plus the
workspace root. -/
structure CargoWorkspace where
  packages : List PackageData
  targets : List TargetData
  workspace_root : String
deriving DecidableEq

/-- Mirrors `CargoWorkspace::is_unique` (lines 275-277). -/
def CargoWorkspace.is_unique (ws : CargoWorkspace) (name : String) : Bool :=
  (ws.packages.filter (fun v => v.name == name)).length == 1

/-- Mirrors `CargoWorkspace::package_flag` (lines 267-273). -/
def CargoWorkspace.package_flag (ws : CargoWorkspace) (package : PackageData) : String :=
  if ws.is_unique package.name then package.name
  else package.name ++ ":" ++ package.version

/-- Mirrors `cargo_metadata::CargoOpt`, the feature-selection mode handed to
the primary metadata query (used at lines 151-159). -/
inductive CargoOpt where
  | AllFeatures
  | NoDefaultFeatures
  | SomeFeatures (features : List String)
deriving DecidableEq

/-- Mirrors the feature-selection branch of `from_cargo_metadata`
(lines 151-159): the `CargoOpt` passed to `MetadataCommand::features`, or
`none` when the branch calls nothing (all flags off and empty list). -/
def metadata_features (cargo_features : CargoConfig) : Option CargoOpt :=
  if cargo_features.all_features then some CargoOpt.AllFeatures
  else if cargo_features.no_default_features then some CargoOpt.NoDefaultFeatures
  else if !cargo_features.features.isEmpty then
    some (CargoOpt.SomeFeatures cargo_features.features)
  else none

/-- Mirrors the feature-selection branch of `load_extern_resources`
(lines 293-301): the arguments appended to the `cargo check` command after
`--manifest-path`. -/
def check_feature_args (cargo_features : CargoConfig) : List String :=
  if cargo_features.all_features then ["--all-features"]
  else if cargo_features.no_default_features then ["--no-default-features"]
  else cargo_features.features

/-- Modelled from the spec (section 4.1): the single feature-selection mode
chosen by the precedence "all features" over "no default features" over an
explicit feature list (nothing when all are off and the list is empty). -/
def featureMode (cargo_features : CargoConfig) : Option CargoOpt :=
  if cargo_features.all_features then some CargoOpt.AllFeatures
  else if cargo_features.no_default_features then some CargoOpt.NoDefaultFeatures
  else if cargo_features.features.isEmpty then none
  else some (CargoOpt.SomeFeatures cargo_features.features)

/-- How the `cargo check` invocation renders a feature-selection mode as
command-line arguments. -/
def renderCheckArgs : Option CargoOpt → List String
  | some CargoOpt.AllFeatures => ["--all-features"]
  | some CargoOpt.NoDefaultFeatures => ["--no-default-features"]
  | some (CargoOpt.SomeFeatures fs) => fs
  | none => []

/-- The reversed-suffix scanner behind `Path::extension`: the input is the
reversed file name; the result is the reversed extension (the characters
before the first dot of the reversed name), `none` when there is no dot or
when the only reachable dot is the first character of the file name. -/
def extTake : List Char → Option (List Char)
  | [] => none
  | c :: cs =>
    if c = '.' then (if cs.isEmpty then none else some [])
    else (extTake cs).map (fun e => c :: e)

/-- Rust `Path::extension` on a string path: the portion of the file name
(the component after the last separator) after its last dot; `none` when
the file name has no dot or starts with its only dot. -/
def extension (path : String) : Option String :=
  (extTake (path.data.reverse.takeWhile (fun c => c != '/'))).map
    (fun l => String.mk l.reverse)

/-- Rust `char::to_lowercase` folded over a string
(`str::to_lowercase` for the ASCII extensions compared here). -/
def lowerString (s : String) : String :=
  String.mk (s.data.map Char.toLower)

/-- Mirrors `is_dylib` (lines 335-340): the lowercased file extension must
be one of `dll`, `dylib`, `so`. -/
def is_dylib (path : String) : Bool :=
  match (extension path).map lowerString with
  | none => false
  | some ext => ext == "dll" || ext == "dylib" || ext == "so"

/-- Mirrors `cargo_metadata::Message` as consumed by
`load_extern_resources` (lines 307-330), restricted to the fields the
loader reads. -/
inductive Message where
  | BuildScriptExecuted (package_id : String) (out_dir : String) (cfgs : List String)
  | CompilerArtifact (package_id : String) (target_kind : List String)
      (filenames : List String)
  | CompilerMessage
  | Unknown
  | BuildFinished
  | TextLine (line : String)
deriving DecidableEq

/-- Mirrors `ExternResources` (lines 280-285).  The three `FxHashMap`s are
association lists; insertion prepends, and `List.lookup` (first match)
realizes the map's last-insert-wins semantics. -/
structure ExternResources where
  out_dirs : List (String × String)
  proc_dylib_paths : List (String × String)
  cfgs : List (String × List String)
deriving DecidableEq

/-- Mirrors one iteration of the event loop of `load_extern_resources`
(lines 309-328): a build-script event records the output directory and the
compile flags for its package id; a compiler-artifact event whose target
kind contains "proc-macro" records the first reported output file that
`is_dylib` accepts (skipping e.g. rmeta files); all other events are
discarded. -/
def process_message (res : ExternResources) : Message → ExternResources
  | Message.BuildScriptExecuted package_id out_dir cfgs =>
    { res with
      out_dirs := (package_id, out_dir) :: res.out_dirs,
      cfgs := (package_id, cfgs) :: res.cfgs }
  | Message.CompilerArtifact package_id target_kind filenames =>
    if target_kind.contains "proc-macro" then
      match filenames.find? (fun name => is_dylib name) with
      | some filename =>
        { res with proc_dylib_paths := (package_id, filename) :: res.proc_dylib_paths }
      | none => res
    else res
  | Message.CompilerMessage => res
  | Message.Unknown => res
  | Message.BuildFinished => res
  | Message.TextLine _ => res

/-- The event loop of `load_extern_resources` (lines 307-330) over the
parse stream: a `none` entry is an event that failed to parse
(`if let Ok(message)` skips it). -/
def process_messages (res : ExternResources) : List (Option Message) → ExternResources
  | [] => res
  | none :: rest => process_messages res rest
  | some m :: rest => process_messages (process_message res m) rest

/-- The observable outcome of `std::process::Command::output` for the
`cargo check` invocation: the exit status and the parsed stdout event
stream.  `Command::output` itself only fails when the process cannot be
spawned or read, which is the `Except.error` case of its result. -/
structure ProcOutput where
  status_success : Bool
  stdout : List (Option Message)
deriving DecidableEq

/-- Mirrors `load_extern_resources` (lines 287-332) from the point where
the spawned process result is available: a spawn/read failure (`?` on
`cmd.output()`) propagates; otherwise the stdout stream is folded into an
`ExternResources` — the exit status field is never consulted. -/
def load_extern_resources (output : Except String ProcOutput) :
    Except String ExternResources :=
  match output with
  | Except.error e => Except.error e
  | Except.ok out => Except.ok (process_messages ⟨[], [], []⟩ out.stdout)

/-- Mirrors `cargo_metadata::Target` as read by the builder (lines
208-217): name, source path, raw kind labels. -/
structure MetaTarget where
  name : String
  src_path : String
  kind : List String
deriving DecidableEq

/-- Mirrors `cargo_metadata::Package` as read by the builder (lines
186-205): id, edition string, name, manifest path, version, targets. -/
structure MetaPackage where
  id : String
  edition : String
  name : String
  manifest_path : String
  version : String
  targets : List MetaTarget
deriving DecidableEq

/-- Mirrors `cargo_metadata::NodeDep` (lines 232-243): the dependency
edge's target package id and its local alias name. -/
structure NodeDep where
  pkg : String
  name : String
deriving DecidableEq

/-- Mirrors `cargo_metadata::Node` (lines 221-247): a resolved
dependency-graph node. -/
structure ResolveNode where
  id : String
  deps : List NodeDep
  features : List String
deriving DecidableEq

/-- Mirrors `cargo_metadata::Resolve` (line 220). -/
structure Resolve where
  nodes : List ResolveNode
deriving DecidableEq

/-- Mirrors `cargo_metadata::Metadata`, the parsed output of the primary
`cargo metadata` query, restricted to the fields the builder reads. -/
structure Metadata where
  packages : List MetaPackage
  workspace_members : List String
  resolve : Option Resolve
  workspace_root : String
deriving DecidableEq

/-- In-place update of one list element (`packages[source].…` mutations of
the arena at lines 244 and 246). -/
def modifyIdx : List α → Nat → (α → α) → List α
  | [], _, _ => []
  | a :: as, 0, f => f a :: as
  | a :: as, n + 1, f => a :: modifyIdx as n f

/-- The id-to-index pairs inserted into `pkg_by_id` (line 207) while
processing a package list, with `base` the arena index of the first
package. -/
def idPairs (base : Nat) : List MetaPackage → List (String × Nat)
  | [] => []
  | p :: rest => (p.id, base) :: idPairs (base + 1) rest

/-- The finished `pkg_by_id` table for a package list: each insertion
prepends, so the list ends up reversed and `List.lookup` (first match)
gives the hash map's last-insert-wins answer. -/
def idMapOf (pkgs : List MetaPackage) : List (String × Nat) :=
  (idPairs 0 pkgs).reverse

/-- The external-id-to-arena-index resolution used by the dependency-graph
walk: `pkg_by_id.get(&id)`. -/
def pkgIndex (pkgs : List MetaPackage) (id : String) : Option Nat :=
  (idMapOf pkgs).lookup id

/-- The warning logged for a dependency-graph node whose id is absent from
the package listing (line 228). -/
def nodeWarning (n : ResolveNode) : String :=
  "Node id do not match in cargo metadata, ignoring " ++ n.id

/-- The warning logged for a dependency edge whose target id is absent
from the package listing (lines 236-239). -/
def depWarning (d : NodeDep) : String :=
  "Dep node id do not match in cargo metadata, ignoring " ++ d.pkg

/-- Intermediate builder state: the two arenas being filled plus the
`pkg_by_id` lookup table (lines 180-182). -/
structure BuildSt where
  packages : List PackageData
  targets : List TargetData
  pkg_by_id : List (String × Nat)
deriving DecidableEq

/-- Mirrors the inner target loop (lines 208-218): allocate a
`TargetData` for each `cargo_metadata::Target` and collect the allocated
arena indices for the owning package's `targets` list. -/
def processTargets (pkg : Nat) (targets : List TargetData) (idxs : List Nat) :
    List MetaTarget → List TargetData × List Nat
  | [] => (targets, idxs)
  | t :: rest =>
    processTargets pkg
      (targets ++ [{ package := pkg, name := t.name, root := t.src_path,
                     kind := TargetKind.new t.kind,
                     proc_m_flag := t.kind == ["proc-macro"] }])
      (idxs ++ [targets.length]) rest

/-- Mirrors the package loop (lines 186-219): for each metadata package,
parse its edition (fatal on failure), allocate a `PackageData` populated
from the extern-resource side tables, allocate its targets, and record the
id-to-index mapping. -/
def processPackages (res : ExternResources) (ws_members : List String)
    (st : BuildSt) : List MetaPackage → Except String BuildSt
  | [] => Except.ok st
  | p :: rest =>
    match Edition.parse p.edition with
    | none => Except.error ("Failed to parse edition " ++ p.edition)
    | some edition =>
      let pkg := st.packages.length
      let tp := processTargets pkg st.targets [] p.targets
      let pd : PackageData :=
        { name := p.name,
          version := p.version,
          manifest := p.manifest_path,
          targets := tp.2,
          is_member := ws_members.contains p.id,
          edition := edition,
          dependencies := [],
          features := [],
          cfgs := (res.cfgs.lookup p.id).getD [],
          out_dir := res.out_dirs.lookup p.id,
          proc_dylib_path := res.proc_dylib_paths.lookup p.id }
      processPackages res ws_members
        ⟨st.packages ++ [pd], tp.1, (p.id, pkg) :: st.pkg_by_id⟩ rest

/-- Mirrors the edge loop of one resolved node (lines 232-245): resolve
each edge's target id; an unresolvable edge is logged and skipped by
itself; a resolved edge is pushed onto the source package's
`dependencies`. -/
def processDeps (pkg_by_id : List (String × Nat)) (source : Nat)
    (packages : List PackageData) (warnings : List String) :
    List NodeDep → List PackageData × List String
  | [] => (packages, warnings)
  | d :: rest =>
    match pkg_by_id.lookup d.pkg with
    | none => processDeps pkg_by_id source packages (warnings ++ [depWarning d]) rest
    | some pkg =>
      processDeps pkg_by_id source
        (modifyIdx packages source
          (fun p => { p with dependencies := p.dependencies ++ [⟨pkg, d.name⟩] }))
        warnings rest

/-- Mirrors the dependency-graph walk (lines 221-247): for each node,
resolve its id (an unresolvable node is logged and skipped whole); for a
resolved node process its edges and then extend the source package's
feature set with the node's activated features. -/
def processNodes (pkg_by_id : List (String × Nat))
    (packages : List PackageData) (warnings : List String) :
    List ResolveNode → List PackageData × List String
  | [] => (packages, warnings)
  | n :: rest =>
    match pkg_by_id.lookup n.id with
    | none => processNodes pkg_by_id packages (warnings ++ [nodeWarning n]) rest
    | some source =>
      let pw := processDeps pkg_by_id source packages warnings n.deps
      processNodes pkg_by_id
        (modifyIdx pw.1 source (fun p => { p with features := p.features ++ n.features }))
        pw.2 rest

/-- The outcome of `from_cargo_metadata`: the `Result::Ok` workspace
together with the warnings logged along the way, the `Result::Err`
channel, or a process abort (`Option::expect` panic), which Rust keeps
distinct from the `Result` channel. -/
inductive BuildResult where
  | ok (ws : CargoWorkspace) (warnings : List String)
  | err (msg : String)
  | panicked (msg : String)
deriving DecidableEq

/-- Mirrors lines 170-178: the three side tables default to empty and are
filled from `load_extern_resources` only when `load_out_dirs_from_check`
is set (a loader failure propagates through `?`). -/
def loadResources (cargo_features : CargoConfig)
    (check_output : Except String ProcOutput) : Except String ExternResources :=
  if cargo_features.load_out_dirs_from_check then load_extern_resources check_output
  else Except.ok ⟨[], [], []⟩

/-- Mirrors `CargoWorkspace::from_cargo_metadata` (lines 144-250) from the
point where the primary query output `meta` is parsed (process execution
is external; `check_output` is the secondary invocation's outcome, used
only behind `load_out_dirs_from_check`): load the side tables, run the
package loop, then walk the dependency graph — `meta.resolve` is accessed
with `.expect("metadata executed with deps")`, a panic when absent. -/
def CargoWorkspace.from_cargo_metadata (cargo_features : CargoConfig)
    (meta : Metadata) (check_output : Except String ProcOutput) : BuildResult :=
  match loadResources cargo_features check_output with
  | Except.error e => BuildResult.err e
  | Except.ok resources =>
    match processPackages resources meta.workspace_members ⟨[], [], []⟩ meta.packages with
    | Except.error e => BuildResult.err e
    | Except.ok st =>
      match meta.resolve with
      | none => BuildResult.panicked "metadata executed with deps"
      | some resolve =>
        let pw := processNodes st.pkg_by_id st.packages [] resolve.nodes
        BuildResult.ok ⟨pw.1, st.targets, meta.workspace_root⟩ pw.2

/-- The dependency edges of a node that resolve, as `PackageDependency`
records (the resolved subset of the edge loop's output). -/
def resolvedDeps (pkg_by_id : List (String × Nat)) (deps : List NodeDep) :
    List PackageDependency :=
  deps.filterMap (fun d => (pkg_by_id.lookup d.pkg).map (fun pkg => ⟨pkg, d.name⟩))

/-- The warnings the edge loop logs for one node's edge list. -/
def depWarnings (pkg_by_id : List (String × Nat)) (deps : List NodeDep) :
    List String :=
  deps.filterMap (fun d => match pkg_by_id.lookup d.pkg with
    | none => some (depWarning d)
    | some _ => none)

/-- The net effect of one dependency-graph node on the package arena. -/
def applyNode (pkg_by_id : List (String × Nat)) (packages : List PackageData)
    (n : ResolveNode) : List PackageData :=
  match pkg_by_id.lookup n.id with
  | none => packages
  | some source =>
    modifyIdx packages source
      (fun p => { p with
                  dependencies := p.dependencies ++ resolvedDeps pkg_by_id n.deps
                  features := p.features ++ n.features })

/-- The warnings the dependency-graph walk logs for a node list. -/
def nodesWarnings (pkg_by_id : List (String × Nat)) : List ResolveNode → List String
  | [] => []
  | n :: rest =>
    (match pkg_by_id.lookup n.id with
     | none => [nodeWarning n]
     | some _ => depWarnings pkg_by_id n.deps) ++ nodesWarnings pkg_by_id rest

/-- The dependency edges the whole graph walk appends to the package at
arena index `i`, in walk order. -/
def contribDeps (pkg_by_id : List (String × Nat)) (i : Nat) :
    List ResolveNode → List PackageDependency
  | [] => []
  | n :: rest =>
    (if pkg_by_id.lookup n.id = some i then resolvedDeps pkg_by_id n.deps else []) ++
      contribDeps pkg_by_id i rest

/-- The features the whole graph walk appends to the package at arena
index `i`, in walk order. -/
def contribFeatures (pkg_by_id : List (String × Nat)) (i : Nat) :
    List ResolveNode → List String
  | [] => []
  | n :: rest =>
    (if pkg_by_id.lookup n.id = some i then n.features else []) ++
      contribFeatures pkg_by_id i rest

theorem modifyIdx_length (f : α → α) :
    ∀ (l : List α) (i : Nat), (modifyIdx l i f).length = l.length := by
  intro l
  induction l with
  | nil => intro i; rfl
  | cons a as ih =>
    intro i
    cases i with
    | zero => simp [modifyIdx]
    | succ n => simp [modifyIdx, ih n]

theorem modifyIdx_congr (l : List α) (i : Nat) (f g : α → α)
    (h : ∀ a, f a = g a) : modifyIdx l i f = modifyIdx l i g := by
  induction l generalizing i with
  | nil => rfl
  | cons a as ih =>
    cases i with
    | zero => simp [modifyIdx, h a]
    | succ n => simp [modifyIdx, ih n]

theorem modifyIdx_id (l : List α) (i : Nat) :
    modifyIdx l i (fun a => a) = l := by
  induction l generalizing i with
  | nil => rfl
  | cons a as ih =>
    cases i with
    | zero => rfl
    | succ n => simp [modifyIdx, ih n]

theorem modifyIdx_modifyIdx (l : List α) (i : Nat) (f g : α → α) :
    modifyIdx (modifyIdx l i f) i g = modifyIdx l i (fun a => g (f a)) := by
  induction l generalizing i with
  | nil => rfl
  | cons a as ih =>
    cases i with
    | zero => rfl
    | succ n => simp [modifyIdx, ih n]

theorem modifyIdx_get? (f : α → α) :
    ∀ (l : List α) (i j : Nat),
      (modifyIdx l i f).get? j =
        if j = i then (l.get? j).map f else l.get? j := by
  intro l
  induction l with
  | nil => intro i j; simp [modifyIdx]
  | cons a as ih =>
    intro i j
    cases i with
    | zero =>
      cases j with
      | zero => rfl
      | succ m => simp [modifyIdx]
    | succ n =>
      cases j with
      | zero => simp [modifyIdx]
      | succ m =>
        simp only [modifyIdx, List.get?_cons_succ]
        rw [ih n m]
        simp [Nat.succ_inj]

theorem processDeps_eq (pkg_by_id : List (String × Nat)) (source : Nat) :
    ∀ (deps : List NodeDep) (packages : List PackageData) (warnings : List String),
      processDeps pkg_by_id source packages warnings deps =
        (modifyIdx packages source
           (fun p => { p with dependencies := p.dependencies ++ resolvedDeps pkg_by_id deps }),
         warnings ++ depWarnings pkg_by_id deps) := by
  intro deps
  induction deps with
  | nil =>
    intro packages warnings
    simp only [processDeps, resolvedDeps, depWarnings, List.filterMap_nil,
      List.append_nil]
    rw [modifyIdx_congr packages source _ (fun a => a) (fun a => rfl), modifyIdx_id]
  | cons d rest ih =>
    intro packages warnings
    cases hd : pkg_by_id.lookup d.pkg with
    | none =>
      simp only [processDeps, hd, ih, Prod.mk.injEq]
      constructor
      · apply modifyIdx_congr
        intro a
        simp [resolvedDeps, List.filterMap_cons, hd]
      · simp [depWarnings, List.filterMap_cons, hd, resolvedDeps]
    | some pkg =>
      simp only [processDeps, hd, ih, Prod.mk.injEq]
      constructor
      · rw [modifyIdx_modifyIdx]
        apply modifyIdx_congr
        intro a
        simp [resolvedDeps, List.filterMap_cons, hd, List.append_assoc]
      · simp [depWarnings, List.filterMap_cons, hd]

theorem processNodes_eq (pkg_by_id : List (String × Nat)) :
    ∀ (nodes : List ResolveNode) (packages : List PackageData) (warnings : List String),
      processNodes pkg_by_id packages warnings nodes =
        (nodes.foldl (applyNode pkg_by_id) packages,
         warnings ++ nodesWarnings pkg_by_id nodes) := by
  intro nodes
  induction nodes with
  | nil => intro packages warnings; simp [processNodes, nodesWarnings]
  | cons n rest ih =>
    intro packages warnings
    cases hn : pkg_by_id.lookup n.id with
    | none =>
      simp only [processNodes, hn, ih, List.foldl_cons, nodesWarnings, Prod.mk.injEq]
      constructor
      · show _ = List.foldl _ (applyNode pkg_by_id packages n) rest
        rw [show applyNode pkg_by_id packages n = packages by
          simp [applyNode, hn]]
      · simp [hn, List.append_assoc]
    | some source =>
      simp only [processNodes, hn, processDeps_eq, ih, List.foldl_cons, nodesWarnings, Prod.mk.injEq]
      constructor
      · rw [modifyIdx_modifyIdx]
        show List.foldl _ _ rest = List.foldl _ (applyNode pkg_by_id packages n) rest
        rw [show applyNode pkg_by_id packages n =
              modifyIdx packages source
                (fun a => { a with
                            dependencies := a.dependencies ++ resolvedDeps pkg_by_id n.deps
                            features := a.features ++ n.features }) by
          simp [applyNode, hn]]
      · simp [hn, List.append_assoc]

theorem foldl_applyNode_length (pkg_by_id : List (String × Nat)) :
    ∀ (nodes : List ResolveNode) (packages : List PackageData),
      (nodes.foldl (applyNode pkg_by_id) packages).length = packages.length := by
  intro nodes
  induction nodes with
  | nil => intro packages; rfl
  | cons n rest ih =>
    intro packages
    rw [List.foldl_cons, ih]
    cases hn : pkg_by_id.lookup n.id with
    | none => simp [applyNode, hn]
    | some source => simp [applyNode, hn, modifyIdx_length]

theorem foldl_applyNode_get? (pkg_by_id : List (String × Nat)) :
    ∀ (nodes : List ResolveNode) (packages : List PackageData) (i : Nat),
      (nodes.foldl (applyNode pkg_by_id) packages).get? i =
        (packages.get? i).map
          (fun q => { q with
                      dependencies := q.dependencies ++ contribDeps pkg_by_id i nodes
                      features := q.features ++ contribFeatures pkg_by_id i nodes }) := by
  intro nodes
  induction nodes with
  | nil =>
    intro packages i
    simp only [List.foldl_nil, contribDeps, contribFeatures, List.append_nil]
    cases packages.get? i with
    | none => rfl
    | some q => rfl
  | cons n rest ih =>
    intro packages i
    rw [List.foldl_cons, ih (applyNode pkg_by_id packages n) i]
    cases hn : pkg_by_id.lookup n.id with
    | none =>
      have happly : applyNode pkg_by_id packages n = packages := by
        simp [applyNode, hn]
      rw [happly]
      have hne : ¬ pkg_by_id.lookup n.id = some i := by simp [hn]
      simp only [contribDeps, contribFeatures, if_neg hne, List.nil_append]
    | some source =>
      have happly : applyNode pkg_by_id packages n =
          modifyIdx packages source
            (fun p => { p with
                        dependencies := p.dependencies ++ resolvedDeps pkg_by_id n.deps
                        features := p.features ++ n.features }) := by
        simp [applyNode, hn]
      rw [happly, modifyIdx_get?]
      by_cases hsi : i = source
      · subst hsi
        have htrue : pkg_by_id.lookup n.id = some i := hn
        simp only [if_pos rfl, contribDeps, contribFeatures, if_pos htrue]
        cases packages.get? i with
        | none => rfl
        | some q => simp [List.append_assoc]
      · have hne : ¬ pkg_by_id.lookup n.id = some i := by
          simp [hn]; exact fun he => hsi he.symm
        simp only [if_neg hsi, contribDeps, contribFeatures, if_neg hne,
          List.nil_append]

theorem idPairs_keys : ∀ (base : Nat) (pkgs : List MetaPackage),
    (idPairs base pkgs).map Prod.fst = pkgs.map MetaPackage.id := by
  intro base pkgs
  induction pkgs generalizing base with
  | nil => rfl
  | cons p rest ih => simp [idPairs, ih]

theorem idPairs_mem_lt : ∀ (base : Nat) (pkgs : List MetaPackage) (k : String) (i : Nat),
    (k, i) ∈ idPairs base pkgs → base ≤ i ∧ i < base + pkgs.length := by
  intro base pkgs
  induction pkgs generalizing base with
  | nil => intro k i h; cases h
  | cons p rest ih =>
    intro k i h
    cases h with
    | head =>
      constructor
      · exact Nat.le_refl base
      · simp [Nat.lt_add_of_pos_right, Nat.succ_pos]
    | tail _ hmem =>
      have := ih (base + 1) k i hmem
      constructor
      · exact Nat.le_of_succ_le this.1
      · have h2 := this.2
        simp only [List.length_cons]
        omega

theorem pkgIndex_eq_none_iff (pkgs : List MetaPackage) (id : String) :
    pkgIndex pkgs id = none ↔ id ∉ pkgs.map MetaPackage.id := by
  unfold pkgIndex idMapOf
  rw [List.lookup_eq_none_iff]
  rw [← idPairs_keys 0 pkgs]
  constructor
  · intro h hmem
    obtain ⟨pr, hpr, hfst⟩ := List.mem_map.mp hmem
    have := h pr (List.mem_reverse.mpr hpr)
    rw [bne_iff_ne] at this
    exact this hfst.symm
  · intro h pr hpr
    rw [bne_iff_ne]
    intro he
    exact h (List.mem_map.mpr ⟨pr, List.mem_reverse.mp hpr, he.symm⟩)

theorem pkgIndex_isSome_of_mem (pkgs : List MetaPackage) (id : String)
    (h : id ∈ pkgs.map MetaPackage.id) : (pkgIndex pkgs id).isSome = true := by
  cases hp : pkgIndex pkgs id with
  | none => exact absurd ((pkgIndex_eq_none_iff pkgs id).mp hp) (fun hn => hn h)
  | some i => rfl

theorem pkgIndex_lt (pkgs : List MetaPackage) (id : String) (i : Nat)
    (h : pkgIndex pkgs id = some i) : i < pkgs.length := by
  unfold pkgIndex idMapOf at h
  obtain ⟨l1, l2, heq, -⟩ := List.lookup_eq_some_iff.mp h
  have hmem : (id, i) ∈ ((idPairs 0 pkgs).reverse : List (String × Nat)) := by
    rw [heq]
    exact List.mem_append.mpr (Or.inr (List.mem_cons_self _ _))
  have := idPairs_mem_lt 0 pkgs id i (List.mem_reverse.mp hmem)
  simpa using this.2

theorem processPackages_isOk (res : ExternResources) (ws_members : List String) :
    ∀ (pkgs : List MetaPackage) (st : BuildSt),
      (∀ p ∈ pkgs, (Edition.parse p.edition).isSome = true) →
      ∃ st2, processPackages res ws_members st pkgs = Except.ok st2 := by
  intro pkgs
  induction pkgs with
  | nil => intro st _; exact ⟨st, rfl⟩
  | cons p rest ih =>
    intro st h
    have hp := h p (List.mem_cons_self p rest)
    cases hpe : Edition.parse p.edition with
    | none => rw [hpe] at hp; cases hp
    | some ed =>
      simp only [processPackages, hpe]
      exact ih _ (fun q hq => h q (List.mem_cons_of_mem p hq))

theorem processPackages_spec (res : ExternResources) (ws_members : List String) :
    ∀ (pkgs : List MetaPackage) (st st2 : BuildSt),
      processPackages res ws_members st pkgs = Except.ok st2 →
      st2.packages.length = st.packages.length + pkgs.length ∧
      st2.pkg_by_id = (idPairs st.packages.length pkgs).reverse ++ st.pkg_by_id ∧
      ∀ q ∈ st2.packages, q ∈ st.packages ∨ (q.dependencies = [] ∧ q.features = []) := by
  intro pkgs
  induction pkgs with
  | nil =>
    intro st st2 h
    cases h
    exact ⟨rfl, by simp [idPairs], fun q hq => Or.inl hq⟩
  | cons p rest ih =>
    intro st st2 h
    cases hpe : Edition.parse p.edition with
    | none => rw [processPackages, hpe] at h; cases h
    | some ed =>
      rw [processPackages, hpe] at h
      have := ih _ st2 h
      refine ⟨?_, ?_, ?_⟩
      · rw [this.1]
        show (st.packages ++ [_]).length + rest.length =
          st.packages.length + (p :: rest).length
        simp only [List.length_append, List.length_singleton, List.length_cons,
          List.length_nil]
        omega
      · rw [this.2.1]
        show (idPairs (st.packages ++ [_]).length rest).reverse ++
            ((p.id, st.packages.length) :: st.pkg_by_id) =
          (idPairs st.packages.length (p :: rest)).reverse ++ st.pkg_by_id
        simp only [List.length_append, List.length_singleton, List.length_cons,
          List.length_nil, idPairs, List.reverse_cons, List.append_assoc,
          List.singleton_append]
      · intro q hq
        cases this.2.2 q hq with
        | inl hmem =>
          cases List.mem_append.mp hmem with
          | inl h1 => exact Or.inl h1
          | inr h2 =>
            cases h2 with
            | head => exact Or.inr ⟨rfl, rfl⟩
            | tail _ hc => cases hc
        | inr hnew => exact Or.inr hnew

/-- C5: target-kind classification is a pure function over an ordered label
list where the first matching label wins: for every label list,
`TargetKind::new` returns `Bin` for "bin", `Test` for "test", `Bench` for
"bench", `Example` for "example", `Lib` for the compiler-extension label
"proc-macro" or any label containing the substring "lib", scanning labels
in list order, and `Other` when no label matches any rule — i.e. it agrees
with the specification's first-match table `targetKindSpec` on every
input. -/
theorem targetKind_new_eq_spec (kinds : List String) :
    TargetKind.new kinds = targetKindSpec kinds := by
  induction kinds with
  | nil => rfl
  | cons k rest ih =>
    show TargetKind.new (k :: rest) = targetKindSpec (k :: rest)
    rw [TargetKind.new, targetKindSpec, List.filterMap_cons, labelRule]
    split_ifs <;> simp [targetKindSpec, ih]

/-- C6: for every feature configuration, at most one feature-selection
mode is transmitted per external invocation, chosen by the precedence
all-features over no-default-features over the explicit feature list, and
both the primary metadata query (`metadata_features`) and the
resource-loader invocation (`check_feature_args`) realize this same
precedence, the latter rendering the mode as command-line arguments. -/
theorem feature_selection_precedence (cargo_features : CargoConfig) :
    metadata_features cargo_features = featureMode cargo_features ∧
    check_feature_args cargo_features =
      renderCheckArgs (featureMode cargo_features) := by
  unfold metadata_features featureMode check_feature_args renderCheckArgs
  by_cases h1 : cargo_features.all_features <;>
    by_cases h2 : cargo_features.no_default_features <;>
    by_cases h3 : cargo_features.features.isEmpty <;>
    simp_all [List.isEmpty_iff]

/-- C7: `package_flag` returns the bare package name when no other package
in the workspace has that name (the name occurs exactly once among the
workspace's package names), and the composite "name:version" when at least
one other package shares the name (the name occurs more than once). -/
theorem package_flag_disambiguation (ws : CargoWorkspace) (p : PackageData)
    (hp : p ∈ ws.packages) :
    (((ws.packages.map PackageData.name).count p.name = 1) →
        ws.package_flag p = p.name) ∧
    ((1 < (ws.packages.map PackageData.name).count p.name) →
        ws.package_flag p = p.name ++ ":" ++ p.version) := by
  have hcount : (ws.packages.map PackageData.name).count p.name =
      (ws.packages.filter (fun v => v.name == p.name)).length := by
    rw [List.count_eq_countP, List.countP_map, List.countP_eq_length_filter]
    rfl
  constructor
  · intro h1
    rw [hcount] at h1
    unfold CargoWorkspace.package_flag CargoWorkspace.is_unique
    rw [if_pos]
    rw [h1]
    rfl
  · intro h1
    rw [hcount] at h1
    unfold CargoWorkspace.package_flag CargoWorkspace.is_unique
    rw [if_neg]
    intro hb
    rw [Nat.beq_eq_true_eq] at hb
    rw [hb] at h1
    exact Nat.lt_irrefl 1 h1

/-- C7 witness: in a workspace with packages a@1.0, a@2.0 and c@3.0, the
two same-named packages get "name:version" flags and the uniquely named
one gets its bare name (shown for a@1.0 and c@3.0). -/
def pkgD (version name : String) : PackageData :=
  ⟨version, name, "m", [], true, [], Edition.edition2018, [], [], none, none⟩

/-- The three-package workspace used to witness name disambiguation. -/
def wsSample : CargoWorkspace :=
  ⟨[pkgD "1.0" "a", pkgD "2.0" "a", pkgD "3.0" "c"], [], "/w"⟩

theorem package_flag_disambiguation_witness :
    wsSample.package_flag (pkgD "1.0" "a") = "a:1.0" ∧
    wsSample.package_flag (pkgD "3.0" "c") = "c" := by
  constructor
  · exact (package_flag_disambiguation wsSample (pkgD "1.0" "a")
      (by decide)).2 (by decide)
  · exact (package_flag_disambiguation wsSample (pkgD "3.0" "c")
      (by decide)).1 (by decide)

/-- C8: for every compiler-artifact event whose target kind contains the
compiler-extension label "proc-macro", the loader records for the event's
package identifier the first entry of the reported output-file list that
`is_dylib` accepts (an extension among dll/dylib/so, case-insensitively) —
every earlier entry fails the extension check — and when no output file
has such an extension nothing is recorded at all. -/
theorem compiler_artifact_records_first_dylib (res : ExternResources)
    (package_id : String) (target_kind : List String) (filenames : List String)
    (hpm : target_kind.contains "proc-macro" = true) :
    (∀ filename, filenames.find? (fun name => is_dylib name) = some filename →
        (process_message res
            (Message.CompilerArtifact package_id target_kind filenames)).proc_dylib_paths =
          (package_id, filename) :: res.proc_dylib_paths ∧
        is_dylib filename = true ∧
        ∃ skipped found, filenames = skipped ++ filename :: found ∧
          ∀ g ∈ skipped, is_dylib g = false) ∧
    (filenames.find? (fun name => is_dylib name) = none →
        process_message res
            (Message.CompilerArtifact package_id target_kind filenames) = res) := by
  have hm : "proc-macro" ∈ target_kind := by simpa using hpm
  constructor
  · intro filename hf
    refine ⟨?_, ?_, ?_⟩
    · simp [process_message, hm, hf]
    · simpa using List.find?_some hf
    · obtain ⟨hp, as, bs, heq, hall⟩ := List.find?_eq_some.mp hf
      exact ⟨as, bs, heq, fun g hg => by simpa using hall g hg⟩
  · intro hf
    simp [process_message, hm, hf]

theorem compiler_artifact_records_first_dylib_witness :
    (process_message ⟨[], [], []⟩
        (Message.CompilerArtifact "p" ["proc-macro"]
          ["a.rmeta", "b.so", "c.dylib"])).proc_dylib_paths = [("p", "b.so")] ∧
    is_dylib "b.so" = true := by
  have h := (compiler_artifact_records_first_dylib ⟨[], [], []⟩ "p" ["proc-macro"]
      ["a.rmeta", "b.so", "c.dylib"] (by decide)).1 "b.so" (by decide)
  exact ⟨h.1, h.2.1⟩

/-- C4 counterexample: the secondary invocation exits with a non-zero
status (`status_success = false`) yet `load_extern_resources` returns
`Except.ok` with populated side tables — it does not return a fatal error,
because the exit status of `cmd.output()` is never consulted. -/
theorem load_extern_nonzero_exit_counterexample :
    load_extern_resources (Except.ok ⟨false,
        [some (Message.BuildScriptExecuted "pkg" "out" ["f"])]⟩) =
      Except.ok ⟨[("pkg", "out")], [], [("pkg", ["f"])]⟩ := rfl

/-- C4 amended: `load_extern_resources` returns a fatal error exactly when
the secondary invocation fails to spawn or be read (the error of
`cmd.output()`); given any process output it returns the folded side
tables regardless of the exit status, which it never consults. -/
theorem load_extern_error_only_on_spawn_failure (e : String) (b : Bool)
    (stream : List (Option Message)) :
    load_extern_resources (Except.error e) = Except.error e ∧
    load_extern_resources (Except.ok ⟨b, stream⟩) =
      Except.ok (process_messages ⟨[], [], []⟩ stream) :=
  ⟨rfl, rfl⟩

/-- C10: when the loader step succeeds and every package edition parses,
a metadata response with no dependency-resolution (`resolve`) section
makes `from_cargo_metadata` panic through the `expect` on the resolve
field ("metadata executed with deps") instead of returning an error
through the `Result` channel. -/
theorem missing_resolve_panics (cargo_features : CargoConfig) (meta : Metadata)
    (check_output : Except String ProcOutput) (res : ExternResources)
    (hload : loadResources cargo_features check_output = Except.ok res)
    (hed : ∀ p ∈ meta.packages, (Edition.parse p.edition).isSome = true)
    (hres : meta.resolve = none) :
    CargoWorkspace.from_cargo_metadata cargo_features meta check_output =
      BuildResult.panicked "metadata executed with deps" := by
  obtain ⟨st, hst⟩ :=
    processPackages_isOk res meta.workspace_members meta.packages ⟨[], [], []⟩ hed
  simp [CargoWorkspace.from_cargo_metadata, hload, hst, hres]

theorem missing_resolve_panics_witness :
    CargoWorkspace.from_cargo_metadata ⟨false, false, [], false, none⟩
        ⟨[], [], none, "/w"⟩ (Except.ok ⟨true, []⟩) =
      BuildResult.panicked "metadata executed with deps" :=
  missing_resolve_panics ⟨false, false, [], false, none⟩ ⟨[], [], none, "/w"⟩
    (Except.ok ⟨true, []⟩) ⟨[], [], []⟩ rfl (by simp) rfl

theorem nodesWarnings_append (pkg_by_id : List (String × Nat)) :
    ∀ (l1 l2 : List ResolveNode),
      nodesWarnings pkg_by_id (l1 ++ l2) =
        nodesWarnings pkg_by_id l1 ++ nodesWarnings pkg_by_id l2 := by
  intro l1 l2
  induction l1 with
  | nil => simp [nodesWarnings]
  | cons n rest ih => simp [nodesWarnings, ih, List.append_assoc]

theorem resolvedDeps_length_of_resolvable (pkg_by_id : List (String × Nat)) :
    ∀ (deps : List NodeDep),
      (∀ d ∈ deps, (pkg_by_id.lookup d.pkg).isSome = true) →
      (resolvedDeps pkg_by_id deps).length = deps.length := by
  intro deps
  induction deps with
  | nil => intro _; rfl
  | cons d rest ih =>
    intro h
    have hd := h d (List.mem_cons_self d rest)
    obtain ⟨pkg, hpkg⟩ := Option.isSome_iff_exists.mp hd
    simp only [resolvedDeps, List.filterMap_cons, hpkg, Option.map_some']
    simp only [List.length_cons]
    rw [show (List.filterMap
        (fun d => (pkg_by_id.lookup d.pkg).map (fun pkg => (⟨pkg, d.name⟩ : PackageDependency)))
        rest).length = rest.length from
      ih (fun q hq => h q (List.mem_cons_of_mem d hq))]

theorem resolvedDeps_mem (pkg_by_id : List (String × Nat))
    (deps : List NodeDep) (d : PackageDependency)
    (h : d ∈ resolvedDeps pkg_by_id deps) :
    ∃ nd ∈ deps, pkg_by_id.lookup nd.pkg = some d.pkg := by
  obtain ⟨nd, hnd, hmap⟩ := List.mem_filterMap.mp h
  obtain ⟨pkg, hpkg, heq⟩ := Option.map_eq_some'.mp hmap
  refine ⟨nd, hnd, ?_⟩
  rw [hpkg]
  rw [← heq]

theorem contribDeps_mem (pkg_by_id : List (String × Nat)) (i : Nat) :
    ∀ (nodes : List ResolveNode) (d : PackageDependency),
      d ∈ contribDeps pkg_by_id i nodes →
      ∃ n ∈ nodes, pkg_by_id.lookup n.id = some i ∧
        d ∈ resolvedDeps pkg_by_id n.deps := by
  intro nodes
  induction nodes with
  | nil => intro d h; cases h
  | cons n rest ih =>
    intro d h
    rcases List.mem_append.mp h with h1 | h2
    · by_cases hn : pkg_by_id.lookup n.id = some i
      · rw [if_pos hn] at h1
        exact ⟨n, List.mem_cons_self n rest, hn, h1⟩
      · rw [if_neg hn] at h1
        cases h1
    · obtain ⟨n2, hn2, hlook, hd⟩ := ih d h2
      exact ⟨n2, List.mem_cons_of_mem n hn2, hlook, hd⟩

/-- Inversion of a successful build: the loader succeeded, the package
loop succeeded with some state `st`, the resolve section was present, and
the result is the graph walk applied to `st`. -/
theorem from_cargo_metadata_ok_inversion (cargo_features : CargoConfig)
    (meta : Metadata) (check_output : Except String ProcOutput)
    (ws : CargoWorkspace) (w : List String)
    (h : CargoWorkspace.from_cargo_metadata cargo_features meta check_output =
      BuildResult.ok ws w) :
    ∃ res st r, loadResources cargo_features check_output = Except.ok res ∧
      processPackages res meta.workspace_members ⟨[], [], []⟩ meta.packages =
        Except.ok st ∧
      meta.resolve = some r ∧
      ws.packages = r.nodes.foldl (applyNode st.pkg_by_id) st.packages ∧
      ws.targets = st.targets ∧
      ws.workspace_root = meta.workspace_root ∧
      w = nodesWarnings st.pkg_by_id r.nodes := by
  cases hload : loadResources cargo_features check_output with
  | error e => simp [CargoWorkspace.from_cargo_metadata, hload] at h
  | ok res =>
    cases hpp : processPackages res meta.workspace_members ⟨[], [], []⟩ meta.packages with
    | error e => simp [CargoWorkspace.from_cargo_metadata, hload, hpp] at h
    | ok st =>
      cases hres : meta.resolve with
      | none => simp [CargoWorkspace.from_cargo_metadata, hload, hpp, hres] at h
      | some r =>
        simp only [CargoWorkspace.from_cargo_metadata, hload, hpp, hres,
          processNodes_eq, List.nil_append, BuildResult.ok.injEq] at h
        refine ⟨res, st, r, rfl, hpp, rfl, ?_, ?_, ?_, ?_⟩
        · rw [← h.1]
        · rw [← h.1]
        · rw [← h.1]
        · rw [← h.2]

/-- Running `processPackages` from the empty initial state: the lookup table is
the full id map, the arena has one entry per metadata package, and every
entry starts with empty dependency and feature lists. -/
theorem processPackages_init_spec (res : ExternResources) (ws_members : List String)
    (pkgs : List MetaPackage) (st : BuildSt)
    (hpp : processPackages res ws_members ⟨[], [], []⟩ pkgs = Except.ok st) :
    st.pkg_by_id = idMapOf pkgs ∧
    st.packages.length = pkgs.length ∧
    ∀ q ∈ st.packages, q.dependencies = [] ∧ q.features = [] := by
  obtain ⟨hlen, hpbi, hempty⟩ :=
    processPackages_spec res ws_members pkgs ⟨[], [], []⟩ st hpp
  refine ⟨?_, ?_, ?_⟩
  · rw [hpbi]
    show (idPairs ([] : List PackageData).length pkgs).reverse ++ [] = idMapOf pkgs
    simp [idMapOf]
  · rw [hlen]
    show ([] : List PackageData).length + pkgs.length = pkgs.length
    simp
  · intro q hq
    rcases hempty q hq with h1 | h2
    · exact absurd h1 (List.not_mem_nil q)
    · exact h2

/-- C1: for a metadata response whose dependency graph resolves entirely
against the package records, a successful build has exactly one `Package`
entry per package record, no edge of any node is dropped by resolution,
and the dependency list of the package at each index is exactly the
concatenation, in walk order, of the resolved edges of the nodes whose id
maps to that index — every edge appears exactly once on its source
package. -/
theorem complete_graph_build (cargo_features : CargoConfig) (meta : Metadata)
    (check_output : Except String ProcOutput) (r : Resolve)
    (ws : CargoWorkspace) (w : List String)
    (hr : meta.resolve = some r)
    (hok : CargoWorkspace.from_cargo_metadata cargo_features meta check_output =
      BuildResult.ok ws w)
    (hnodes : ∀ n ∈ r.nodes, n.id ∈ meta.packages.map MetaPackage.id)
    (hdeps : ∀ n ∈ r.nodes, ∀ d ∈ n.deps, d.pkg ∈ meta.packages.map MetaPackage.id) :
    ws.packages.length = meta.packages.length ∧
    (∀ n ∈ r.nodes,
      (resolvedDeps (idMapOf meta.packages) n.deps).length = n.deps.length) ∧
    (∀ i p, ws.packages.get? i = some p →
      p.dependencies = contribDeps (idMapOf meta.packages) i r.nodes) := by
  obtain ⟨res, st, r2, hload, hpp, hres, hpk, htg, hroot, hw⟩ :=
    from_cargo_metadata_ok_inversion _ _ _ _ _ hok
  rw [hr] at hres
  injection hres with hres2
  subst hres2
  obtain ⟨hpbi, hlen, hempty⟩ :=
    processPackages_init_spec res meta.workspace_members meta.packages st hpp
  have hlen2 : ws.packages.length = meta.packages.length := by
    rw [hpk, foldl_applyNode_length, hlen]
  refine ⟨hlen2, ?_, ?_⟩
  · intro n hn
    apply resolvedDeps_length_of_resolvable
    intro d hd
    exact pkgIndex_isSome_of_mem meta.packages d.pkg (hdeps n hn d hd)
  · intro i p hget
    rw [hpk, foldl_applyNode_get?] at hget
    obtain ⟨q, hq, hpq⟩ := Option.map_eq_some'.mp hget
    have hqe : q.dependencies = [] := (hempty q (List.get?_mem hq)).1
    rw [← hpq]
    show q.dependencies ++ contribDeps st.pkg_by_id i r.nodes =
      contribDeps (idMapOf meta.packages) i r.nodes
    rw [hqe, hpbi]
    exact List.nil_append _

/-- C9: building from byte-identical inputs yields identical results (the
construction is a pure function of the parsed inputs), and within any one
successful build the opaque indices are self-consistent: every dependency
edge's package index points inside the package arena of the same
workspace. -/
theorem build_deterministic_self_consistent
    (cargo_features cargo_features2 : CargoConfig) (meta meta2 : Metadata)
    (check_output check_output2 : Except String ProcOutput)
    (hc : cargo_features = cargo_features2) (hm : meta = meta2)
    (ho : check_output = check_output2) :
    CargoWorkspace.from_cargo_metadata cargo_features meta check_output =
      CargoWorkspace.from_cargo_metadata cargo_features2 meta2 check_output2 ∧
    (∀ ws w,
      CargoWorkspace.from_cargo_metadata cargo_features meta check_output =
        BuildResult.ok ws w →
      ∀ p ∈ ws.packages, ∀ d ∈ p.dependencies, d.pkg < ws.packages.length) := by
  subst hc hm ho
  refine ⟨rfl, ?_⟩
  intro ws w hok p hp d hd
  obtain ⟨res, st, r, hload, hpp, hres, hpk, htg, hroot, hw⟩ :=
    from_cargo_metadata_ok_inversion _ _ _ _ _ hok
  obtain ⟨hpbi, hlen, hempty⟩ :=
    processPackages_init_spec res meta.workspace_members meta.packages st hpp
  obtain ⟨i, hi⟩ := List.mem_iff_get?.mp hp
  rw [hpk, foldl_applyNode_get?] at hi
  obtain ⟨q, hq, hpq⟩ := Option.map_eq_some'.mp hi
  rw [← hpq] at hd
  have hd2 : d ∈ q.dependencies ++ contribDeps st.pkg_by_id i r.nodes := hd
  rw [(hempty q (List.get?_mem hq)).1, List.nil_append] at hd2
  obtain ⟨n, hn, hlook, hdr⟩ := contribDeps_mem st.pkg_by_id i r.nodes d hd2
  obtain ⟨nd, hnd, hlook2⟩ := resolvedDeps_mem st.pkg_by_id n.deps d hdr
  rw [hpbi] at hlook2
  have hppkg : d.pkg < meta.packages.length :=
    pkgIndex_lt meta.packages nd.pkg d.pkg hlook2
  rw [hpk, foldl_applyNode_length, hlen]
  exact hppkg

/-- C2: a dependency-graph node whose package identifier is absent from
the package listing is skipped entirely — the build still returns a
successfully built workspace, that workspace is identical to the one built
without the node (none of its edges or features reach any package), and
the node's inconsistency warning is observably logged. -/
theorem unresolved_node_skipped (cargo_features : CargoConfig)
    (check_output : Except String ProcOutput) (res : ExternResources)
    (pkgs : List MetaPackage) (ws_members : List String) (root : String)
    (pre post : List ResolveNode) (n : ResolveNode)
    (hload : loadResources cargo_features check_output = Except.ok res)
    (hed : ∀ p ∈ pkgs, (Edition.parse p.edition).isSome = true)
    (hid : n.id ∉ pkgs.map MetaPackage.id) :
    ∃ ws w w2,
      CargoWorkspace.from_cargo_metadata cargo_features
          ⟨pkgs, ws_members, some ⟨pre ++ n :: post⟩, root⟩ check_output =
        BuildResult.ok ws w ∧
      nodeWarning n ∈ w ∧
      CargoWorkspace.from_cargo_metadata cargo_features
          ⟨pkgs, ws_members, some ⟨pre ++ post⟩, root⟩ check_output =
        BuildResult.ok ws w2 := by
  obtain ⟨st, hst⟩ := processPackages_isOk res ws_members pkgs ⟨[], [], []⟩ hed
  have hpbi := (processPackages_init_spec res ws_members pkgs st hst).1
  have hlook : st.pkg_by_id.lookup n.id = none := by
    rw [hpbi]
    exact (pkgIndex_eq_none_iff pkgs n.id).mpr hid
  have hb : ∀ nodes : List ResolveNode,
      CargoWorkspace.from_cargo_metadata cargo_features
          ⟨pkgs, ws_members, some ⟨nodes⟩, root⟩ check_output =
        BuildResult.ok
          ⟨nodes.foldl (applyNode st.pkg_by_id) st.packages, st.targets, root⟩
          (nodesWarnings st.pkg_by_id nodes) := by
    intro nodes
    simp [CargoWorkspace.from_cargo_metadata, hload, hst, processNodes_eq]
  have hfold : (pre ++ n :: post).foldl (applyNode st.pkg_by_id) st.packages =
      (pre ++ post).foldl (applyNode st.pkg_by_id) st.packages := by
    rw [List.foldl_append, List.foldl_append, List.foldl_cons]
    rw [show applyNode st.pkg_by_id (pre.foldl (applyNode st.pkg_by_id) st.packages) n =
        pre.foldl (applyNode st.pkg_by_id) st.packages by
      simp [applyNode, hlook]]
  have hwarn : nodeWarning n ∈ nodesWarnings st.pkg_by_id (pre ++ n :: post) := by
    rw [nodesWarnings_append]
    refine List.mem_append.mpr (Or.inr ?_)
    show nodeWarning n ∈ nodesWarnings st.pkg_by_id (n :: post)
    simp [nodesWarnings, hlook]
  refine ⟨⟨(pre ++ post).foldl (applyNode st.pkg_by_id) st.packages, st.targets, root⟩,
    nodesWarnings st.pkg_by_id (pre ++ n :: post),
    nodesWarnings st.pkg_by_id (pre ++ post), ?_, hwarn, hb (pre ++ post)⟩
  rw [hb (pre ++ n :: post), hfold]

/-- C3: for a resolved dependency-graph node, an individual edge whose
target identifier does not resolve is dropped by itself — the build
succeeds, its workspace is identical to the one built with just that edge
removed (so every resolvable sibling edge is still appended to the source
package, and the node's feature list is still appended), and the edge's
inconsistency warning is observably logged. -/
theorem unresolved_edge_dropped (cargo_features : CargoConfig)
    (check_output : Except String ProcOutput) (res : ExternResources)
    (pkgs : List MetaPackage) (ws_members : List String) (root : String)
    (pre post : List ResolveNode) (nid : String) (feats : List String)
    (dpre dpost : List NodeDep) (d : NodeDep) (s : Nat)
    (hload : loadResources cargo_features check_output = Except.ok res)
    (hed : ∀ p ∈ pkgs, (Edition.parse p.edition).isSome = true)
    (hsrc : pkgIndex pkgs nid = some s)
    (hd : d.pkg ∉ pkgs.map MetaPackage.id) :
    ∃ ws w w2,
      CargoWorkspace.from_cargo_metadata cargo_features
          ⟨pkgs, ws_members,
           some ⟨pre ++ (⟨nid, dpre ++ d :: dpost, feats⟩ : ResolveNode) :: post⟩,
           root⟩ check_output =
        BuildResult.ok ws w ∧
      depWarning d ∈ w ∧
      CargoWorkspace.from_cargo_metadata cargo_features
          ⟨pkgs, ws_members,
           some ⟨pre ++ (⟨nid, dpre ++ dpost, feats⟩ : ResolveNode) :: post⟩,
           root⟩ check_output =
        BuildResult.ok ws w2 := by
  obtain ⟨st, hst⟩ := processPackages_isOk res ws_members pkgs ⟨[], [], []⟩ hed
  have hpbi := (processPackages_init_spec res ws_members pkgs st hst).1
  have hlookd : st.pkg_by_id.lookup d.pkg = none := by
    rw [hpbi]
    exact (pkgIndex_eq_none_iff pkgs d.pkg).mpr hd
  have hlookn : st.pkg_by_id.lookup nid = some s := by
    rw [hpbi]
    exact hsrc
  have hrd : resolvedDeps st.pkg_by_id (dpre ++ d :: dpost) =
      resolvedDeps st.pkg_by_id (dpre ++ dpost) := by
    simp [resolvedDeps, List.filterMap_append, List.filterMap_cons, hlookd]
  have happ : ∀ packages : List PackageData,
      applyNode st.pkg_by_id packages ⟨nid, dpre ++ d :: dpost, feats⟩ =
      applyNode st.pkg_by_id packages ⟨nid, dpre ++ dpost, feats⟩ := by
    intro packages
    simp [applyNode, hlookn, hrd]
  have hb : ∀ nodes : List ResolveNode,
      CargoWorkspace.from_cargo_metadata cargo_features
          ⟨pkgs, ws_members, some ⟨nodes⟩, root⟩ check_output =
        BuildResult.ok
          ⟨nodes.foldl (applyNode st.pkg_by_id) st.packages, st.targets, root⟩
          (nodesWarnings st.pkg_by_id nodes) := by
    intro nodes
    simp [CargoWorkspace.from_cargo_metadata, hload, hst, processNodes_eq]
  have hfold :
      (pre ++ (⟨nid, dpre ++ d :: dpost, feats⟩ : ResolveNode) :: post).foldl
          (applyNode st.pkg_by_id) st.packages =
      (pre ++ (⟨nid, dpre ++ dpost, feats⟩ : ResolveNode) :: post).foldl
          (applyNode st.pkg_by_id) st.packages := by
    rw [List.foldl_append, List.foldl_append, List.foldl_cons, List.foldl_cons]
    rw [happ (pre.foldl (applyNode st.pkg_by_id) st.packages)]
  have hwarn : depWarning d ∈
      nodesWarnings st.pkg_by_id
        (pre ++ (⟨nid, dpre ++ d :: dpost, feats⟩ : ResolveNode) :: post) := by
    rw [nodesWarnings_append]
    refine List.mem_append.mpr (Or.inr ?_)
    show depWarning d ∈ nodesWarnings st.pkg_by_id
      ((⟨nid, dpre ++ d :: dpost, feats⟩ : ResolveNode) :: post)
    refine List.mem_append.mpr (Or.inl ?_)
    show depWarning d ∈
      (match st.pkg_by_id.lookup nid with
       | none => [nodeWarning ⟨nid, dpre ++ d :: dpost, feats⟩]
       | some _ => depWarnings st.pkg_by_id (dpre ++ d :: dpost))
    rw [hlookn]
    simp [depWarnings, List.filterMap_append, List.filterMap_cons, hlookd]
  refine ⟨⟨(pre ++ (⟨nid, dpre ++ dpost, feats⟩ : ResolveNode) :: post).foldl
      (applyNode st.pkg_by_id) st.packages, st.targets, root⟩,
    nodesWarnings st.pkg_by_id
      (pre ++ (⟨nid, dpre ++ d :: dpost, feats⟩ : ResolveNode) :: post),
    nodesWarnings st.pkg_by_id
      (pre ++ (⟨nid, dpre ++ dpost, feats⟩ : ResolveNode) :: post),
    ?_, hwarn, hb _⟩
  rw [hb _, hfold]

/-- Fixture configuration: no feature flags, no out-dir loading. -/
def cfgSample : CargoConfig := ⟨false, false, [], false, none⟩

/-- Fixture secondary-invocation outcome (unused: loading is off). -/
def outSample : Except String ProcOutput := Except.ok ⟨true, []⟩

/-- Fixture package records: a\@1.0 (bin target) and b\@2.0 (lib target). -/
def pkgsSample : List MetaPackage :=
  [⟨"a", "2018", "a", "/a/Cargo.toml", "1.0", [⟨"a", "src/main.rs", ["bin"]⟩]⟩,
   ⟨"b", "2015", "b", "/b/Cargo.toml", "2.0", [⟨"b", "src/lib.rs", ["lib"]⟩]⟩]

/-- Fixture resolve graph: a depends on b under alias "bdep", feature f1. -/
def rSample : Resolve :=
  ⟨[⟨"a", [⟨"b", "bdep"⟩], ["f1"]⟩, ⟨"b", [], []⟩]⟩

/-- Fixture metadata built from `pkgsSample` and `rSample`. -/
def mSample : Metadata := ⟨pkgsSample, ["a"], some rSample, "/root"⟩

/-- The package entry the build produces for a\@1.0 under `mSample`. -/
def pA : PackageData :=
  ⟨"1.0", "a", "/a/Cargo.toml", [0], true, [⟨1, "bdep"⟩], Edition.edition2018,
   ["f1"], [], none, none⟩

/-- The package entry the build produces for b\@2.0. -/
def pB : PackageData :=
  ⟨"2.0", "b", "/b/Cargo.toml", [1], false, [], Edition.edition2015, [], [],
   none, none⟩

/-- The target entries the build produces. -/
def tA : TargetData := ⟨0, "a", "src/main.rs", TargetKind.Bin, false⟩

def tB : TargetData := ⟨1, "b", "src/lib.rs", TargetKind.Lib, false⟩

/-- The workspace built from `mSample`. -/
def wsBuilt : CargoWorkspace := ⟨[pA, pB], [tA, tB], "/root"⟩

theorem complete_graph_build_witness :
    wsBuilt.packages.length = mSample.packages.length :=
  (complete_graph_build cfgSample mSample outSample rSample wsBuilt [] rfl rfl
    (by decide) (by decide)).1

theorem build_deterministic_self_consistent_witness :
    (⟨1, "bdep"⟩ : PackageDependency).pkg < wsBuilt.packages.length :=
  (build_deterministic_self_consistent cfgSample cfgSample mSample mSample
      outSample outSample rfl rfl rfl).2
    wsBuilt [] rfl pA (List.Mem.head _) ⟨1, "bdep"⟩ (List.Mem.head _)

/-- Fixture node whose id resolves against no package record. -/
def nGhost : ResolveNode := ⟨"ghost", [], ["fx"]⟩

/-- Fixture resolvable node for package a with no edges. -/
def nodeA0 : ResolveNode := ⟨"a", [], []⟩

/-- Fixture metadata whose graph contains the unresolvable `nGhost`. -/
def mGhost : Metadata := ⟨pkgsSample, ["a"], some ⟨[nGhost, nodeA0]⟩, "/root"⟩

/-- The package entry for a\@1.0 when no edge or feature reaches it. -/
def pA0 : PackageData :=
  ⟨"1.0", "a", "/a/Cargo.toml", [0], true, [], Edition.edition2018, [], [],
   none, none⟩

/-- The workspace built from `mGhost`: `nGhost` leaves no trace. -/
def wsGhost : CargoWorkspace := ⟨[pA0, pB], [tA, tB], "/root"⟩

theorem unresolved_node_skipped_witness :
    CargoWorkspace.from_cargo_metadata cfgSample mGhost outSample =
      BuildResult.ok wsGhost [nodeWarning nGhost] ∧
    nodeWarning nGhost ∈ [nodeWarning nGhost] := by
  obtain ⟨ws, w, w2, h1, h2, h3⟩ :=
    unresolved_node_skipped cfgSample outSample ⟨[], [], []⟩ pkgsSample ["a"]
      "/root" [] [nodeA0] nGhost rfl (by decide) (by decide)
  have hc : CargoWorkspace.from_cargo_metadata cfgSample mGhost outSample =
      BuildResult.ok wsGhost [nodeWarning nGhost] := rfl
  have he : BuildResult.ok ws w = BuildResult.ok wsGhost [nodeWarning nGhost] :=
    h1.symm.trans hc
  injection he with hws hw
  exact ⟨hc, hw ▸ h2⟩

/-- Fixture unresolvable dependency edge. -/
def dGhost : NodeDep := ⟨"ghost", "g"⟩

/-- Fixture node for package a whose first edge is unresolvable and whose
second edge resolves to b. -/
def nodeEdge : ResolveNode := ⟨"a", [dGhost, ⟨"b", "bdep"⟩], ["f1"]⟩

/-- Fixture metadata whose graph contains `nodeEdge`. -/
def mEdge : Metadata := ⟨pkgsSample, ["a"], some ⟨[nodeEdge]⟩, "/root"⟩

theorem unresolved_edge_dropped_witness :
    CargoWorkspace.from_cargo_metadata cfgSample mEdge outSample =
      BuildResult.ok wsBuilt [depWarning dGhost] ∧
    depWarning dGhost ∈ [depWarning dGhost] := by
  obtain ⟨ws, w, w2, h1, h2, h3⟩ :=
    unresolved_edge_dropped cfgSample outSample ⟨[], [], []⟩ pkgsSample ["a"]
      "/root" [] [] "a" ["f1"] [] [⟨"b", "bdep"⟩] dGhost 0 rfl (by decide)
      (by decide) (by decide)
  have hc : CargoWorkspace.from_cargo_metadata cfgSample mEdge outSample =
      BuildResult.ok wsBuilt [depWarning dGhost] := rfl
  have he : BuildResult.ok ws w = BuildResult.ok wsBuilt [depWarning dGhost] :=
    h1.symm.trans hc
  injection he with hws hw
  exact ⟨hc, hw ▸ h2⟩

end CargoWS
